import Mathlib

/-!
Verification of the poll-based echo server in `issue_codes/15_server.py`.

The server is a single-threaded, readiness-multiplexed TCP echo loop:
a `select.poll` object is driven in a `while True` loop; each `(fd, flag)`
event is dispatched through an `if/elif` chain that accepts new
connections, receives and enqueues data, sends queued chunks back, and
tears connections down on zero-byte reads, hangups, and errors.

The embedding below models the mutable process state (the
`fd_to_sockets` dictionary, the `message_queues` dictionary, the
poller's registration table, and the open/closed status of each socket)
as a record of total functions indexed by file descriptor, and the body
of the `for fd, flag in events` loop as a function
`dispatch : ServerState → Event → Option ServerState`; `none` models an
uncaught exception (a `KeyError` from a dictionary lookup or from the
poller) that would abort the process.  Ghost fields `sentLog` and
`recvLog` record, per descriptor, the chunks handed to `send` and the
non-empty chunks returned by `recv`, so that echo properties can be
stated as trace equalities.
-/

namespace EchoServer

/-- One chunk of bytes, as returned by one `recv` call (bytes as `Nat`). -/
abbrev Chunk := List Nat

/-- `select.POLLIN`. -/
def POLLIN : Nat := 1

/-- `select.POLLPRI`. -/
def POLLPRI : Nat := 2

/-- `select.POLLOUT`. -/
def POLLOUT : Nat := 4

/-- `select.POLLERR`. -/
def POLLERR : Nat := 8

/-- `select.POLLHUP`. -/
def POLLHUP : Nat := 16

/-- `READ_ONLY = select.POLLIN | select.POLLPRI | select.POLLHUP | select.POLLERR` (line 30). -/
def READ_ONLY : Nat := POLLIN ||| POLLPRI ||| POLLHUP ||| POLLERR

/-- `READ_WRITE = READ_ONLY | select.POLLOUT` (line 31). -/
def READ_WRITE : Nat := READ_ONLY ||| POLLOUT

/-- Point update of a finite map modelled as `Nat → Option α`
(a Python dictionary assignment `d[k] = v`). -/
def mapSet {α : Type} (m : Nat → Option α) (k : Nat) (v : α) : Nat → Option α :=
  fun q => if q = k then some v else m q

/-- Point removal from a finite map (a Python `del d[k]`; the caller is
responsible for modelling the `KeyError` when the key is absent). -/
def mapDel {α : Type} (m : Nat → Option α) (k : Nat) : Nat → Option α :=
  fun q => if q = k then none else m q

/-- Point update of a total function indexed by descriptor. -/
def setAt {α : Type} (f : Nat → α) (k : Nat) (v : α) : Nat → α :=
  fun q => if q = k then v else f q

/-- The mutable state of the server process.

Sockets are identified by their file descriptor: the Python code keeps a
dictionary `fd_to_sockets` mapping `fileno()` to the socket object, and
each socket's descriptor never changes, so a socket is represented here
by its descriptor and `fd_to_sockets` maps a descriptor to itself. -/
structure ServerState where
  /-- The listening server socket's descriptor (`server`). -/
  serverFd : Nat
  /-- The next descriptor the OS will hand out on `accept` (fresh allocation). -/
  nextFd : Nat
  /-- The `fd_to_sockets` dictionary (line 37): descriptor to socket. -/
  fd_to_sockets : Nat → Option Nat
  /-- The `message_queues` dictionary (line 24): socket to FIFO queue of
  outbound chunks (`Queue.put` appends at the back, `get_nowait` pops the front). -/
  message_queues : Nat → Option (List Chunk)
  /-- The poller's registration table: descriptor to registered interest mask. -/
  pollerReg : Nat → Option Nat
  /-- Whether each socket is open (`s.close()` flips this to `false`). -/
  sockOpen : Nat → Bool
  /-- Ghost trace: chunks handed to `s.send` on each descriptor, in order. -/
  sentLog : Nat → List Chunk
  /-- Ghost trace: non-empty chunks returned by `s.recv` on each descriptor, in order. -/
  recvLog : Nat → List Chunk

/-- One readiness event `(fd, flag)` from `poller.poll`, together with the
environment data consumed when the dispatcher performs I/O on it:
`recvData` is what the OS currently has buffered for a `recv` on this
socket (empty means orderly peer close), and `sendResult` is the byte
count the OS would return from `send`. -/
structure Event where
  fd : Nat
  flag : Nat
  recvData : List Nat
  sendResult : Nat

/-- OS semantics of `s.recv(bufsize)`: returns at most `bufsize` of the
buffered bytes. -/
def socketRecv (avail : List Nat) (bufsize : Nat) : List Nat := avail.take bufsize

/-- OS semantics of `s.send(data)`: returns the number of bytes actually
transmitted; the server never inspects this value. -/
def socketSend (e : Event) : Nat := e.sendResult

/-- The branch of the `if/elif` chain (lines 50-98) selected for a flag
value: readable/urgent first, then hangup, then writable, then error;
`ignored` when no tested bit is set and the loop body does nothing. -/
inductive Branch where
  | readable
  | hangup
  | writable
  | error
  | ignored
  deriving DecidableEq, Repr

/-- The `if/elif` guards in source order:
`flag & (POLLIN | POLLPRI)` (line 50), `flag & POLLHUP` (line 80),
`flag & POLLOUT` (line 86), `flag & POLLERR` (line 98). -/
def selectedBranch (flag : Nat) : Branch :=
  if flag &&& (POLLIN ||| POLLPRI) != 0 then Branch.readable
  else if flag &&& POLLHUP != 0 then Branch.hangup
  else if flag &&& POLLOUT != 0 then Branch.writable
  else if flag &&& POLLERR != 0 then Branch.error
  else Branch.ignored

/-- Accept branch (lines 52-60): `connection, client_address = s.accept()`,
`fd_to_sockets[connection.fileno()] = connection`,
`poller.register(connection, READ_ONLY)`,
`message_queues[connection] = Queue.Queue()`.  The accepted socket gets
the fresh descriptor `nextFd`. -/
def acceptBranch (st : ServerState) : ServerState :=
  let connection := st.nextFd
  { st with
    fd_to_sockets := mapSet st.fd_to_sockets connection connection
    pollerReg := mapSet st.pollerReg connection READ_ONLY
    message_queues := mapSet st.message_queues connection []
    sockOpen := setAt st.sockOpen connection true
    nextFd := st.nextFd + 1 }

/-- Receive branch for a non-listening socket (lines 62-78):
`data = s.recv(1024)`; if `data` is non-empty, `message_queues[s].put(data)`
and `poller.modify(s, READ_WRITE)`; otherwise `poller.unregister(s)`,
`s.close()`, `del message_queues[s]`.  A missing dictionary key or an
unregistered socket raises (`none`). -/
def recvBranch (st : ServerState) (s : Nat) (incoming : List Nat) : Option ServerState :=
  let data := socketRecv incoming 1024
  if data ≠ [] then
    match st.message_queues s, st.pollerReg s with
    | some q, some _ =>
      some { st with
        message_queues := mapSet st.message_queues s (q ++ [data])
        pollerReg := mapSet st.pollerReg s READ_WRITE
        recvLog := setAt st.recvLog s (st.recvLog s ++ [data]) }
    | _, _ => none
  else
    match st.pollerReg s, st.message_queues s with
    | some _, some _ =>
      some { st with
        pollerReg := mapDel st.pollerReg s
        sockOpen := setAt st.sockOpen s false
        message_queues := mapDel st.message_queues s }
    | _, _ => none

/-- Hangup branch (lines 80-85): `poller.unregister(s)`, `s.close()`.
The outbound queue and the `fd_to_sockets` entry are NOT removed here. -/
def hangupBranch (st : ServerState) (s : Nat) : Option ServerState :=
  match st.pollerReg s with
  | some _ =>
    some { st with
      pollerReg := mapDel st.pollerReg s
      sockOpen := setAt st.sockOpen s false }
  | none => none

/-- Writable branch (lines 86-96): `next_msg = message_queues[s].get_nowait()`;
on `Queue.Empty`, `poller.modify(s, READ_ONLY)`; otherwise `s.send(next_msg)`
with the return value discarded. -/
def writableBranch (st : ServerState) (e : Event) (s : Nat) : Option ServerState :=
  match st.message_queues s with
  | none => none
  | some [] =>
    match st.pollerReg s with
    | some _ => some { st with pollerReg := mapSet st.pollerReg s READ_ONLY }
    | none => none
  | some (next_msg :: rest) =>
    let _bytes := socketSend e
    some { st with
      message_queues := mapSet st.message_queues s rest
      sentLog := setAt st.sentLog s (st.sentLog s ++ [next_msg]) }

/-- Error branch (lines 98-104): `poller.unregister(s)`, `s.close()`,
`del message_queues[s]`. -/
def errorBranch (st : ServerState) (s : Nat) : Option ServerState :=
  match st.pollerReg s, st.message_queues s with
  | some _, some _ =>
    some { st with
      pollerReg := mapDel st.pollerReg s
      sockOpen := setAt st.sockOpen s false
      message_queues := mapDel st.message_queues s }
  | _, _ => none

/-- The body of `for fd, flag in events` (lines 45-104):
`s = fd_to_sockets[fd]` (a `KeyError` if absent), then the `if/elif`
chain on `flag`, with the readable branch split on `s is server`. -/
def dispatch (st : ServerState) (e : Event) : Option ServerState :=
  match st.fd_to_sockets e.fd with
  | none => none
  | some s =>
    match selectedBranch e.flag with
    | Branch.readable =>
      if s = st.serverFd then some (acceptBranch st) else recvBranch st s e.recvData
    | Branch.hangup => hangupBranch st s
    | Branch.writable => writableBranch st e s
    | Branch.error => errorBranch st s
    | Branch.ignored => some st

/-- Totalised step: the state the run loop continues with (`dispatch`
when it succeeds). -/
def stepD (st : ServerState) (e : Event) : ServerState := (dispatch st e).getD st

/-- An event the poller can actually deliver: its descriptor is
registered, and `POLLOUT` is only reported when the registered interest
mask asked for it. -/
def validEvent (st : ServerState) (e : Event) : Bool :=
  match st.pollerReg e.fd with
  | none => false
  | some m => e.flag &&& POLLOUT == 0 || m &&& POLLOUT != 0

/-- The state after the setup code (lines 11-37): the listening socket
has descriptor 0, is open, registered `READ_ONLY`, and is the only entry
of `fd_to_sockets`; `message_queues` is empty. -/
def initState : ServerState where
  serverFd := 0
  nextFd := 1
  fd_to_sockets := mapSet (fun _ => none) 0 0
  message_queues := fun _ => none
  pollerReg := mapSet (fun _ => none) 0 READ_ONLY
  sockOpen := setAt (fun _ => false) 0 true
  sentLog := fun _ => []
  recvLog := fun _ => []

/-- States reachable by the run loop: the initial state, and any state
obtained by dispatching a poller-deliverable event that does not raise. -/
inductive Reachable : ServerState → Prop where
  | init : Reachable initState
  | step {st st' : ServerState} {e : Event} : Reachable st → validEvent st e = true →
      dispatch st e = some st' → Reachable st'

/-- Invariant of all reachable states. -/
structure Inv (st : ServerState) : Prop where
  /-- `fd_to_sockets` maps each descriptor to the socket with that descriptor. -/
  map_id : ∀ fd v, st.fd_to_sockets fd = some v → v = fd
  /-- Every registered descriptor is present in `fd_to_sockets`. -/
  reg_in_map : ∀ fd, st.pollerReg fd ≠ none → st.fd_to_sockets fd ≠ none
  /-- The listening socket never has an outbound queue. -/
  server_no_queue : st.message_queues st.serverFd = none
  /-- The listening socket's descriptor is not a future fresh descriptor. -/
  server_lt : st.serverFd < st.nextFd
  /-- Descriptors not yet handed out have no queue and empty traces. -/
  fresh : ∀ fd, st.nextFd ≤ fd →
    st.message_queues fd = none ∧ st.sentLog fd = [] ∧ st.recvLog fd = []
  /-- Per-chunk echo: for any connection that still has its queue, the
  chunks sent so far followed by the pending queue are exactly the
  chunks received, in order. -/
  echo : ∀ fd q, st.message_queues fd = some q → st.sentLog fd ++ q = st.recvLog fd
  /-- The sent trace is always a prefix of the received trace. -/
  sent_pre : ∀ fd, ∃ r, st.sentLog fd ++ r = st.recvLog fd
  /-- Every queued chunk is non-empty and at most 1024 bytes. -/
  chunks_ok : ∀ fd q, st.message_queues fd = some q → ∀ c ∈ q, c ≠ [] ∧ c.length ≤ 1024

/-- Transcribed from the spec's words (§4.3), for comparison with the code's
`selectedBranch`: the flag bits tested by each transition rule. -/
def ruleBits : Branch → Nat
  | Branch.readable => POLLIN ||| POLLPRI
  | Branch.hangup => POLLHUP
  | Branch.writable => POLLOUT
  | Branch.error => POLLERR
  | Branch.ignored => 0

/-- Transcribed from the spec's words (§4.3): the documented precedence order
of the transition rules — readable/urgent first, then hangup, then writable,
then error. -/
def specRuleOrder : List Branch :=
  [Branch.readable, Branch.hangup, Branch.writable, Branch.error]

/-- Transcribed from the spec's words (§4.3): the rules whose flag bits are
set in an event, listed in documented precedence order. -/
def specMatchingRules (flag : Nat) : List Branch :=
  specRuleOrder.filter (fun b => flag &&& ruleBits b != 0)

/-- A `POLLIN` event on the listening socket (descriptor 0) announcing a
pending connection. -/
def evAccept : Event := ⟨0, 1, [], 0⟩

/-- The state after accepting the first client, which gets descriptor 1. -/
def st1 : ServerState := stepD initState evAccept

/-- A readable event on descriptor 1 delivering the single byte `0x78`. -/
def evRecvX : Event := ⟨1, 1, [120], 0⟩

/-- The state after receiving `[120]` on descriptor 1: the chunk is queued
and the connection is re-registered `READ_WRITE`. -/
def st2 : ServerState := stepD st1 evRecvX

/-- A `POLLOUT` event on descriptor 1 (the `send` reports 5 bytes written). -/
def evOut : Event := ⟨1, 4, [], 5⟩

/-- The state after the writable event on `st2`: the queued chunk has been
dequeued and sent, leaving an empty queue — but the interest mask is still
`READ_WRITE`. -/
def st3 : ServerState := stepD st2 evOut

/-- The state after a second writable event: the empty queue is observed and
the connection is re-registered `READ_ONLY`. -/
def st4 : ServerState := stepD st3 evOut

/-- A `POLLHUP` event on descriptor 1. -/
def evHup : Event := ⟨1, 16, [], 0⟩

/-- The state after a hangup on descriptor 1 while a chunk is still queued. -/
def stHup : ServerState := stepD st2 evHup

/-- A readable event on descriptor 1 with no buffered data: a zero-byte
`recv`, i.e. an orderly peer close. -/
def evZero : Event := ⟨1, 1, [], 0⟩

/-- The state after the zero-byte read on descriptor 1. -/
def stZero : ServerState := stepD st1 evZero

/-- The state with two accepted clients (descriptors 1 and 2), where
descriptor 1 still has a queued chunk. -/
def stTwo : ServerState := stepD st2 evAccept

theorem mapSet_self {α : Type} (m : Nat → Option α) (k : Nat) (v : α) :
    mapSet m k v k = some v := by simp [mapSet]

theorem mapSet_ne {α : Type} (m : Nat → Option α) {q k : Nat} (v : α) (h : q ≠ k) :
    mapSet m k v q = m q := by simp [mapSet, h]

theorem mapDel_ne {α : Type} (m : Nat → Option α) {q k : Nat} (h : q ≠ k) :
    mapDel m k q = m q := by simp [mapDel, h]

theorem setAt_ne {α : Type} (f : Nat → α) {q k : Nat} (v : α) (h : q ≠ k) :
    setAt f k v q = f q := by simp [setAt, h]

/-- Teardown of socket `s` (unregister, close, discard queue) preserves the invariant. -/
theorem inv_teardown {st : ServerState} (s : Nat) (h : Inv st) :
    Inv { st with
      pollerReg := mapDel st.pollerReg s
      sockOpen := setAt st.sockOpen s false
      message_queues := mapDel st.message_queues s } := by
  refine ⟨?_, ?_, ?_, ?_, ?_, ?_, ?_, ?_⟩ <;> dsimp only
  · exact h.map_id
  · intro fd hreg
    by_cases hfd : fd = s
    · subst hfd; simp [mapDel] at hreg
    · rw [mapDel_ne _ hfd] at hreg
      exact h.reg_in_map fd hreg
  · by_cases hs : st.serverFd = s
    · simp [mapDel, hs]
    · rw [mapDel_ne _ hs]; exact h.server_no_queue
  · exact h.server_lt
  · intro fd hle
    by_cases hfd : fd = s
    · subst hfd
      exact ⟨by simp [mapDel], (h.fresh fd hle).2.1, (h.fresh fd hle).2.2⟩
    · exact ⟨by rw [mapDel_ne _ hfd]; exact (h.fresh fd hle).1,
        (h.fresh fd hle).2.1, (h.fresh fd hle).2.2⟩
  · intro fd q hq
    by_cases hfd : fd = s
    · subst hfd; simp [mapDel] at hq
    · rw [mapDel_ne _ hfd] at hq
      exact h.echo fd q hq
  · exact h.sent_pre
  · intro fd q hq
    by_cases hfd : fd = s
    · subst hfd; simp [mapDel] at hq
    · rw [mapDel_ne _ hfd] at hq
      exact h.chunks_ok fd q hq

/-- The hangup branch preserves the invariant. -/
theorem inv_hangup {st : ServerState} (s : Nat) (h : Inv st) :
    Inv { st with
      pollerReg := mapDel st.pollerReg s
      sockOpen := setAt st.sockOpen s false } := by
  refine ⟨?_, ?_, ?_, ?_, ?_, ?_, ?_, ?_⟩ <;> dsimp only
  · exact h.map_id
  · intro fd hreg
    by_cases hfd : fd = s
    · subst hfd; simp [mapDel] at hreg
    · rw [mapDel_ne _ hfd] at hreg
      exact h.reg_in_map fd hreg
  · exact h.server_no_queue
  · exact h.server_lt
  · exact h.fresh
  · exact h.echo
  · exact h.sent_pre
  · exact h.chunks_ok


/-- The accept branch preserves the invariant. -/
theorem inv_accept {st : ServerState} (h : Inv st) : Inv (acceptBranch st) := by
  have hsrv : st.serverFd ≠ st.nextFd := Nat.ne_of_lt h.server_lt
  unfold acceptBranch
  refine ⟨?_, ?_, ?_, ?_, ?_, ?_, ?_, ?_⟩ <;> dsimp only
  · intro fd v hv
    by_cases hfd : fd = st.nextFd
    · subst hfd; simp [mapSet] at hv; omega
    · rw [mapSet_ne _ _ hfd] at hv
      exact h.map_id fd v hv
  · intro fd hreg
    by_cases hfd : fd = st.nextFd
    · subst hfd; simp [mapSet]
    · rw [mapSet_ne _ _ hfd] at hreg
      rw [mapSet_ne _ _ hfd]
      exact h.reg_in_map fd hreg
  · rw [mapSet_ne _ _ hsrv]
    exact h.server_no_queue
  · exact Nat.lt_succ_of_lt h.server_lt
  · intro fd hle
    have hfd : fd ≠ st.nextFd := by omega
    have hle' : st.nextFd ≤ fd := by omega
    exact ⟨by rw [mapSet_ne _ _ hfd]; exact (h.fresh fd hle').1,
      (h.fresh fd hle').2.1, (h.fresh fd hle').2.2⟩
  · intro fd q hq
    by_cases hfd : fd = st.nextFd
    · subst hfd
      rw [mapSet_self] at hq
      obtain ⟨-, h1, h2⟩ := h.fresh st.nextFd (Nat.le_refl _)
      cases hq
      rw [h1, h2]
      rfl
    · rw [mapSet_ne _ _ hfd] at hq
      exact h.echo fd q hq
  · exact h.sent_pre
  · intro fd q hq
    by_cases hfd : fd = st.nextFd
    · subst hfd
      rw [mapSet_self] at hq
      cases hq
      intro c hc
      cases hc
    · rw [mapSet_ne _ _ hfd] at hq
      exact h.chunks_ok fd q hq

/-- The non-empty-receive branch preserves the invariant. -/
theorem inv_recv_data {st : ServerState} {s : Nat} {data : Chunk} {q : List Chunk}
    (h : Inv st) (hs : st.fd_to_sockets s = some s) (hserver : s ≠ st.serverFd)
    (hq : st.message_queues s = some q)
    (hdata : data ≠ []) (hlen : data.length ≤ 1024) :
    Inv { st with
      message_queues := mapSet st.message_queues s (q ++ [data])
      pollerReg := mapSet st.pollerReg s READ_WRITE
      recvLog := setAt st.recvLog s (st.recvLog s ++ [data]) } := by
  have hslt : s < st.nextFd := by
    by_contra hcon
    have := (h.fresh s (by omega)).1
    rw [this] at hq
    cases hq
  refine ⟨?_, ?_, ?_, ?_, ?_, ?_, ?_, ?_⟩ <;> dsimp only
  · exact h.map_id
  · intro fd hreg
    by_cases hfd : fd = s
    · subst hfd; rw [hs]; simp
    · rw [mapSet_ne _ _ hfd] at hreg
      exact h.reg_in_map fd hreg
  · rw [mapSet_ne _ _ (Ne.symm hserver)]
    exact h.server_no_queue
  · exact h.server_lt
  · intro fd hle
    have hfd : fd ≠ s := by omega
    exact ⟨by rw [mapSet_ne _ _ hfd]; exact (h.fresh fd hle).1,
      (h.fresh fd hle).2.1, by rw [setAt_ne _ _ hfd]; exact (h.fresh fd hle).2.2⟩
  · intro fd q' hq'
    by_cases hfd : fd = s
    · subst hfd
      rw [mapSet_self] at hq'
      cases hq'
      rw [setAt, if_pos rfl, ← List.append_assoc, h.echo fd q hq]
    · rw [mapSet_ne _ _ hfd] at hq'
      rw [setAt_ne _ _ hfd]
      exact h.echo fd q' hq'
  · intro fd
    by_cases hfd : fd = s
    · subst hfd
      rw [setAt, if_pos rfl]
      exact ⟨q ++ [data], by rw [← List.append_assoc, h.echo fd q hq]⟩
    · rw [setAt_ne _ _ hfd]
      exact h.sent_pre fd
  · intro fd q' hq'
    by_cases hfd : fd = s
    · subst hfd
      rw [mapSet_self] at hq'
      cases hq'
      intro c hc
      rcases List.mem_append.mp hc with hc' | hc'
      · exact h.chunks_ok fd q hq c hc'
      · rcases List.mem_singleton.mp hc' with rfl
        exact ⟨hdata, hlen⟩
    · rw [mapSet_ne _ _ hfd] at hq'
      exact h.chunks_ok fd q' hq'

/-- Re-registering `s` with `READ_ONLY` interest preserves the invariant. -/
theorem inv_modify_ro {st : ServerState} {s : Nat} (h : Inv st)
    (hreg : st.pollerReg s ≠ none) :
    Inv { st with pollerReg := mapSet st.pollerReg s READ_ONLY } := by
  refine ⟨?_, ?_, ?_, ?_, ?_, ?_, ?_, ?_⟩ <;> dsimp only
  · exact h.map_id
  · intro fd hreg'
    by_cases hfd : fd = s
    · subst hfd; exact h.reg_in_map fd hreg
    · rw [mapSet_ne _ _ hfd] at hreg'
      exact h.reg_in_map fd hreg'
  · exact h.server_no_queue
  · exact h.server_lt
  · exact h.fresh
  · exact h.echo
  · exact h.sent_pre
  · exact h.chunks_ok

/-- Dequeuing and sending the head chunk preserves the invariant. -/
theorem inv_send {st : ServerState} {s : Nat} {c : Chunk} {rest : List Chunk}
    (h : Inv st) (hq : st.message_queues s = some (c :: rest)) :
    Inv { st with
      message_queues := mapSet st.message_queues s rest
      sentLog := setAt st.sentLog s (st.sentLog s ++ [c]) } := by
  have hserver : st.serverFd ≠ s := by
    intro hcon
    rw [← hcon, h.server_no_queue] at hq
    cases hq
  have hslt : s < st.nextFd := by
    by_contra hcon
    have := (h.fresh s (by omega)).1
    rw [this] at hq
    cases hq
  refine ⟨?_, ?_, ?_, ?_, ?_, ?_, ?_, ?_⟩ <;> dsimp only
  · exact h.map_id
  · exact h.reg_in_map
  · rw [mapSet_ne _ _ hserver]
    exact h.server_no_queue
  · exact h.server_lt
  · intro fd hle
    have hfd : fd ≠ s := by omega
    exact ⟨by rw [mapSet_ne _ _ hfd]; exact (h.fresh fd hle).1,
      by rw [setAt_ne _ _ hfd]; exact (h.fresh fd hle).2.1,
      (h.fresh fd hle).2.2⟩
  · intro fd q' hq'
    by_cases hfd : fd = s
    · subst hfd
      rw [mapSet_self] at hq'
      cases hq'
      rw [setAt, if_pos rfl, List.append_assoc]
      exact h.echo fd (c :: rest) hq
    · rw [mapSet_ne _ _ hfd] at hq'
      rw [setAt_ne _ _ hfd]
      exact h.echo fd q' hq'
  · intro fd
    by_cases hfd : fd = s
    · subst hfd
      rw [setAt, if_pos rfl]
      exact ⟨rest, by rw [List.append_assoc]; exact h.echo fd (c :: rest) hq⟩
    · rw [setAt_ne _ _ hfd]
      exact h.sent_pre fd
  · intro fd q' hq'
    by_cases hfd : fd = s
    · subst hfd
      rw [mapSet_self] at hq'
      cases hq'
      intro c' hc'
      exact h.chunks_ok fd (c :: rest) hq c' (List.mem_cons_of_mem c hc')
    · rw [mapSet_ne _ _ hfd] at hq'
      exact h.chunks_ok fd q' hq'


/-- The setup state satisfies the invariant. -/
theorem inv_init : Inv initState := by
  refine ⟨?_, ?_, ?_, ?_, ?_, ?_, ?_, ?_⟩
  · intro fd v hv
    by_cases hfd : fd = 0
    · subst hfd
      simp [initState, mapSet] at hv
      omega
    · simp [initState, mapSet, hfd] at hv
  · intro fd hreg
    by_cases hfd : fd = 0
    · subst hfd; simp [initState, mapSet]
    · simp [initState, mapSet, hfd] at hreg
  · rfl
  · exact Nat.zero_lt_one
  · intro fd hle
    exact ⟨rfl, rfl, rfl⟩
  · intro fd q hq
    exact absurd hq (by simp [initState])
  · intro fd
    exact ⟨[], rfl⟩
  · intro fd q hq
    exact absurd hq (by simp [initState])

/-- One successful dispatch step preserves the invariant. -/
theorem inv_step {st st' : ServerState} {e : Event} (h : Inv st)
    (hd : dispatch st e = some st') : Inv st' := by
  unfold dispatch at hd
  cases hmap : st.fd_to_sockets e.fd with
  | none => rw [hmap] at hd; cases hd
  | some s =>
    rw [hmap] at hd
    have hsfd : s = e.fd := h.map_id e.fd s hmap
    cases hb : selectedBranch e.flag <;> rw [hb] at hd <;> dsimp only at hd
    case readable =>
      by_cases hsrv : s = st.serverFd
      · rw [if_pos hsrv] at hd
        cases hd
        exact inv_accept h
      · rw [if_neg hsrv] at hd
        unfold recvBranch at hd
        dsimp only at hd
        by_cases hdata : socketRecv e.recvData 1024 ≠ []
        · rw [if_pos hdata] at hd
          cases hq : st.message_queues s with
          | none => rw [hq] at hd; dsimp only at hd; cases hd
          | some q =>
            rw [hq] at hd
            cases hm : st.pollerReg s with
            | none => rw [hm] at hd; dsimp only at hd; cases hd
            | some m =>
              rw [hm] at hd
              dsimp only at hd
              cases hd
              exact inv_recv_data h (hsfd ▸ hmap) hsrv hq hdata
                (by rw [socketRecv, List.length_take]; exact Nat.min_le_left _ _)
        · rw [if_neg hdata] at hd
          cases hm : st.pollerReg s with
          | none => rw [hm] at hd; dsimp only at hd; cases hd
          | some m =>
            rw [hm] at hd
            cases hq : st.message_queues s with
            | none => rw [hq] at hd; dsimp only at hd; cases hd
            | some q =>
              rw [hq] at hd
              dsimp only at hd
              cases hd
              exact inv_teardown s h
    case hangup =>
      unfold hangupBranch at hd
      cases hm : st.pollerReg s with
      | none => rw [hm] at hd; dsimp only at hd; cases hd
      | some m =>
        rw [hm] at hd
        dsimp only at hd
        cases hd
        exact inv_hangup s h
    case writable =>
      unfold writableBranch at hd
      cases hq : st.message_queues s with
      | none => rw [hq] at hd; dsimp only at hd; cases hd
      | some q =>
        rw [hq] at hd
        cases q with
        | nil =>
          dsimp only at hd
          cases hm : st.pollerReg s with
          | none => rw [hm] at hd; dsimp only at hd; cases hd
          | some m =>
            rw [hm] at hd
            dsimp only at hd
            cases hd
            exact inv_modify_ro h (by simp [hm])
        | cons c rest =>
          dsimp only at hd
          cases hd
          exact inv_send h hq
    case error =>
      unfold errorBranch at hd
      cases hm : st.pollerReg s with
      | none => rw [hm] at hd; dsimp only at hd; cases hd
      | some m =>
        rw [hm] at hd
        cases hq : st.message_queues s with
        | none => rw [hq] at hd; dsimp only at hd; cases hd
        | some q =>
          rw [hq] at hd
          dsimp only at hd
          cases hd
          exact inv_teardown s h
    case ignored =>
      cases hd
      exact h

/-- Every reachable state satisfies the invariant. -/
theorem inv_reachable {st : ServerState} (h : Reachable st) : Inv st := by
  induction h with
  | init => exact inv_init
  | step hr hv hd ih => exact inv_step ih hd

/-- No dispatch branch ever removes an entry from `fd_to_sockets`:
the accept branch adds one, every other branch leaves the map unchanged. -/
theorem dispatch_map_mono {st st' : ServerState} {e : Event}
    (hd : dispatch st e = some st') (fd : Nat)
    (hfd : st.fd_to_sockets fd ≠ none) : st'.fd_to_sockets fd ≠ none := by
  unfold dispatch at hd
  cases hmap : st.fd_to_sockets e.fd with
  | none => rw [hmap] at hd; cases hd
  | some s =>
    rw [hmap] at hd
    cases hb : selectedBranch e.flag <;> rw [hb] at hd <;> dsimp only at hd
    case readable =>
      by_cases hsrv : s = st.serverFd
      · rw [if_pos hsrv] at hd
        cases hd
        unfold acceptBranch
        dsimp only
        by_cases hnew : fd = st.nextFd
        · subst hnew; simp [mapSet]
        · rw [mapSet_ne _ _ hnew]; exact hfd
      · rw [if_neg hsrv] at hd
        unfold recvBranch at hd
        dsimp only at hd
        by_cases hdata : socketRecv e.recvData 1024 ≠ []
        · rw [if_pos hdata] at hd
          cases hq : st.message_queues s with
          | none => rw [hq] at hd; dsimp only at hd; cases hd
          | some q =>
            rw [hq] at hd
            cases hm : st.pollerReg s with
            | none => rw [hm] at hd; dsimp only at hd; cases hd
            | some m => rw [hm] at hd; dsimp only at hd; cases hd; exact hfd
        · rw [if_neg hdata] at hd
          cases hm : st.pollerReg s with
          | none => rw [hm] at hd; dsimp only at hd; cases hd
          | some m =>
            rw [hm] at hd
            cases hq : st.message_queues s with
            | none => rw [hq] at hd; dsimp only at hd; cases hd
            | some q => rw [hq] at hd; dsimp only at hd; cases hd; exact hfd
    case hangup =>
      unfold hangupBranch at hd
      cases hm : st.pollerReg s with
      | none => rw [hm] at hd; dsimp only at hd; cases hd
      | some m => rw [hm] at hd; dsimp only at hd; cases hd; exact hfd
    case writable =>
      unfold writableBranch at hd
      cases hq : st.message_queues s with
      | none => rw [hq] at hd; dsimp only at hd; cases hd
      | some q =>
        rw [hq] at hd
        cases q with
        | nil =>
          dsimp only at hd
          cases hm : st.pollerReg s with
          | none => rw [hm] at hd; dsimp only at hd; cases hd
          | some m => rw [hm] at hd; dsimp only at hd; cases hd; exact hfd
        | cons c rest => dsimp only at hd; cases hd; exact hfd
    case error =>
      unfold errorBranch at hd
      cases hm : st.pollerReg s with
      | none => rw [hm] at hd; dsimp only at hd; cases hd
      | some m =>
        rw [hm] at hd
        cases hq : st.message_queues s with
        | none => rw [hq] at hd; dsimp only at hd; cases hd
        | some q => rw [hq] at hd; dsimp only at hd; cases hd; exact hfd
    case ignored => cases hd; exact hfd

/-- The one-client example run is reachable: accepting the first client. -/
theorem reach_st1 : Reachable st1 :=
  @Reachable.step initState st1 evAccept Reachable.init (by decide) (by rfl)

/-- ... then receiving the byte `0x78` on descriptor 1. -/
theorem reach_st2 : Reachable st2 :=
  @Reachable.step st1 st2 evRecvX reach_st1 (by decide) (by rfl)

/-- ... then one writable event that sends the queued chunk. -/
theorem reach_st3 : Reachable st3 :=
  @Reachable.step st2 st3 evOut reach_st2 (by decide) (by rfl)

/-- ... then a second writable event that demotes the interest mask. -/
theorem reach_st4 : Reachable st4 :=
  @Reachable.step st3 st4 evOut reach_st3 (by decide) (by rfl)

/-- Hangup on descriptor 1 while its chunk is still queued is reachable. -/
theorem reach_stHup : Reachable stHup :=
  @Reachable.step st2 stHup evHup reach_st2 (by decide) (by rfl)

/-- Zero-byte read on the fresh connection is reachable. -/
theorem reach_stZero : Reachable stZero :=
  @Reachable.step st1 stZero evZero reach_st1 (by decide) (by rfl)

/-- The two-client state is reachable. -/
theorem reach_stTwo : Reachable stTwo :=
  @Reachable.step st2 stTwo evAccept reach_st2 (by decide) (by rfl)

/-- C1: for every connection that still has its outbound queue (in particular
every accepted connection that remains open), the chunks sent back so far,
followed by the still-pending queue, are exactly the chunks received from it,
in FIFO order with chunk boundaries preserved. -/
theorem echo_per_connection {st : ServerState} (h : Reachable st) (fd : Nat)
    (q : List Chunk) (hq : st.message_queues fd = some q) :
    st.sentLog fd ++ q = st.recvLog fd :=
  (inv_reachable h).echo fd q hq

theorem echo_per_connection_witness :
    st2.message_queues 1 = some [[120]] ∧ st2.sentLog 1 ++ [[120]] = st2.recvLog 1 :=
  ⟨by decide, echo_per_connection reach_st2 1 [[120]] (by decide)⟩

/-- C2 (code bug witness): a `POLLHUP` event on descriptor 1, received while
a chunk is still queued, closes the socket and unregisters it but leaves its
outbound queue in `message_queues` and its entry in `fd_to_sockets`, so the
"destroyed together" invariant claimed by the spec fails on the code. -/
theorem hangup_keeps_queue_and_registry_entry :
    Reachable stHup ∧ stHup.sockOpen 1 = false ∧ stHup.pollerReg 1 = none ∧
    stHup.message_queues 1 = some [[120]] ∧ stHup.fd_to_sockets 1 = some 1 :=
  ⟨reach_stHup, by decide, by decide, by decide, by decide⟩

/-- C3 (counterexample): after accept, one received chunk, and one writable
event that sends it, the reachable state `st3` sits at a poll boundary with
descriptor 1 still registered `READ_WRITE` and its outbound queue empty. -/
theorem readwrite_empty_queue_at_poll_boundary :
    Reachable st3 ∧ st3.pollerReg 1 = some READ_WRITE ∧ st3.message_queues 1 = some [] :=
  ⟨reach_st3, by decide, by decide⟩

/-- C3 (amended): the demotion happens one writable event later — processing
a writable event on a connection whose outbound queue is empty re-registers
it with `READ_ONLY` interest. -/
theorem writable_empty_queue_demotes {st : ServerState} {e : Event}
    (hmap : st.fd_to_sockets e.fd = some e.fd)
    (hbr : selectedBranch e.flag = Branch.writable)
    (hq : st.message_queues e.fd = some [])
    (hreg : st.pollerReg e.fd ≠ none) :
    dispatch st e = some (stepD st e) ∧
    (stepD st e).pollerReg e.fd = some READ_ONLY ∧
    (stepD st e).message_queues e.fd = some [] := by
  obtain ⟨m, hm⟩ := Option.ne_none_iff_exists'.mp hreg
  have hd : dispatch st e = some { st with pollerReg := mapSet st.pollerReg e.fd READ_ONLY } := by
    unfold dispatch
    rw [hmap]
    dsimp only
    rw [hbr]
    dsimp only
    unfold writableBranch
    rw [hq]
    dsimp only
    rw [hm]
  have hsd : stepD st e = { st with pollerReg := mapSet st.pollerReg e.fd READ_ONLY } := by
    simp [stepD, hd]
  refine ⟨by rw [hd, hsd], ?_, ?_⟩
  · rw [hsd]; simp [mapSet]
  · rw [hsd]; exact hq

theorem writable_empty_queue_demotes_witness :
    st3.fd_to_sockets 1 = some 1 ∧ st3.message_queues 1 = some [] ∧
    (dispatch st3 evOut = some (stepD st3 evOut) ∧
     (stepD st3 evOut).pollerReg 1 = some READ_ONLY ∧
     (stepD st3 evOut).message_queues 1 = some []) :=
  ⟨by decide, by decide,
    writable_empty_queue_demotes (by decide) (by decide) (by decide) (by decide)⟩

/-- C4: when at least one tested flag bit is set, the `elif` chain fires
exactly one rule, namely the first one of the spec's documented precedence
list whose bits are present; later matching rules are not evaluated. -/
theorem precedence_first_match (flag : Nat) (h : specMatchingRules flag ≠ []) :
    selectedBranch flag = (specMatchingRules flag).headD Branch.ignored ∧
    selectedBranch flag ≠ Branch.ignored := by
  unfold specMatchingRules specRuleOrder ruleBits at h ⊢
  unfold selectedBranch
  cases h1 : flag &&& (POLLIN ||| POLLPRI) != 0 <;>
    cases h2 : flag &&& POLLHUP != 0 <;>
      cases h3 : flag &&& POLLOUT != 0 <;>
        cases h4 : flag &&& POLLERR != 0 <;>
          simp_all [List.filter_cons, List.filter_nil]

theorem precedence_first_match_witness :
    specMatchingRules 29 ≠ [] ∧
    (selectedBranch 29 = (specMatchingRules 29).headD Branch.ignored ∧
     selectedBranch 29 ≠ Branch.ignored) :=
  ⟨by decide, precedence_first_match 29 (by decide)⟩

/-- C10: on a reachable state, every poller-deliverable event's descriptor is
present in `fd_to_sockets` — the `s = fd_to_sockets[fd]` lookup cannot raise,
even on events whose later handling raises — and processing any event
whatsoever never removes any `fd_to_sockets` entry (the run loop continues
with `stepD`, which keeps the old state when dispatch raises). -/
theorem event_lookup_never_missing {st : ServerState} {e : Event} (fd : Nat)
    (h : Reachable st) (hv : validEvent st e = true)
    (hfd : st.fd_to_sockets fd ≠ none) :
    st.fd_to_sockets e.fd ≠ none ∧ (stepD st e).fd_to_sockets fd ≠ none := by
  refine ⟨?_, ?_⟩
  · apply (inv_reachable h).reg_in_map
    intro hnone
    unfold validEvent at hv
    rw [hnone] at hv
    cases hv
  · cases hd : dispatch st e with
    | none => simpa [stepD, hd] using hfd
    | some st' => simpa [stepD, hd] using dispatch_map_mono hd fd hfd

theorem event_lookup_never_missing_witness :
    validEvent initState evAccept = true ∧
    (initState.fd_to_sockets 0 ≠ none ∧ (stepD initState evAccept).fd_to_sockets 0 ≠ none) :=
  ⟨by decide,
    @event_lookup_never_missing initState evAccept 0 Reachable.init (by decide) (by decide)⟩

/-- C5: a readable event on a non-listening connection whose `recv` returns
zero bytes tears the connection down: it is unregistered from the poller,
its socket is closed, its outbound queue is discarded, its sent trace is
unchanged — and if it never delivered any data, that trace is empty. -/
theorem zero_read_closes_connection {st : ServerState} {e : Event}
    (h : Reachable st) (hmap : st.fd_to_sockets e.fd = some e.fd)
    (hbr : selectedBranch e.flag = Branch.readable) (hfd : e.fd ≠ st.serverFd)
    (hdata : e.recvData = []) (hreg : st.pollerReg e.fd ≠ none)
    (hq : st.message_queues e.fd ≠ none) :
    dispatch st e = some (stepD st e) ∧
    (stepD st e).pollerReg e.fd = none ∧
    (stepD st e).sockOpen e.fd = false ∧
    (stepD st e).message_queues e.fd = none ∧
    (stepD st e).sentLog e.fd = st.sentLog e.fd ∧
    (st.recvLog e.fd = [] → (stepD st e).sentLog e.fd = []) := by
  obtain ⟨m, hm⟩ := Option.ne_none_iff_exists'.mp hreg
  obtain ⟨q, hqs⟩ := Option.ne_none_iff_exists'.mp hq
  have hd : dispatch st e = some { st with
      pollerReg := mapDel st.pollerReg e.fd
      sockOpen := setAt st.sockOpen e.fd false
      message_queues := mapDel st.message_queues e.fd } := by
    unfold dispatch
    rw [hmap]
    dsimp only
    rw [hbr]
    dsimp only
    rw [if_neg hfd]
    unfold recvBranch
    rw [hdata]
    dsimp only
    rw [if_neg (by simp [socketRecv])]
    rw [hm, hqs]
  have hsd : stepD st e = { st with
      pollerReg := mapDel st.pollerReg e.fd
      sockOpen := setAt st.sockOpen e.fd false
      message_queues := mapDel st.message_queues e.fd } := by
    simp [stepD, hd]
  refine ⟨by rw [hd, hsd], ?_, ?_, ?_, ?_, ?_⟩
  · rw [hsd]; simp [mapDel]
  · rw [hsd]; simp [setAt]
  · rw [hsd]; simp [mapDel]
  · rw [hsd]
  · intro hrecv
    obtain ⟨r, hr⟩ := (inv_reachable h).sent_pre e.fd
    rw [hrecv] at hr
    rw [hsd]
    exact (List.append_eq_nil.mp hr).1

theorem zero_read_closes_connection_witness :
    st1.message_queues 1 = some [] ∧ st1.recvLog 1 = [] ∧
    (dispatch st1 evZero = some (stepD st1 evZero) ∧
     (stepD st1 evZero).pollerReg 1 = none ∧
     (stepD st1 evZero).sockOpen 1 = false ∧
     (stepD st1 evZero).message_queues 1 = none ∧
     (stepD st1 evZero).sentLog 1 = st1.sentLog 1 ∧
     (st1.recvLog 1 = [] → (stepD st1 evZero).sentLog 1 = [])) :=
  ⟨by decide, by decide,
    zero_read_closes_connection reach_st1 (by decide) (by decide) (by decide)
      (by decide) (by decide) (by decide)⟩

/-- C6: a readable event on the listening socket accepts the pending
connection: the fresh descriptor is inserted into `fd_to_sockets`, given an
empty outbound queue and `READ_ONLY` interest, and its socket is open; the
listening socket's own registration is untouched and it still has no
outbound queue. -/
theorem accept_creates_registered_connection {st : ServerState} {e : Event}
    (h : Reachable st) (hmap : st.fd_to_sockets e.fd = some st.serverFd)
    (hbr : selectedBranch e.flag = Branch.readable) :
    dispatch st e = some (acceptBranch st) ∧
    (acceptBranch st).fd_to_sockets st.nextFd = some st.nextFd ∧
    (acceptBranch st).message_queues st.nextFd = some [] ∧
    (acceptBranch st).pollerReg st.nextFd = some READ_ONLY ∧
    (acceptBranch st).sockOpen st.nextFd = true ∧
    (acceptBranch st).pollerReg st.serverFd = st.pollerReg st.serverFd ∧
    (acceptBranch st).message_queues st.serverFd = none := by
  have hsrv : st.serverFd ≠ st.nextFd := Nat.ne_of_lt (inv_reachable h).server_lt
  refine ⟨?_, ?_, ?_, ?_, ?_, ?_, ?_⟩
  · unfold dispatch
    rw [hmap]
    dsimp only
    rw [hbr]
    dsimp only
    rw [if_pos rfl]
  · simp [acceptBranch, mapSet]
  · simp [acceptBranch, mapSet]
  · simp [acceptBranch, mapSet]
  · simp [acceptBranch, setAt]
  · simp [acceptBranch, mapSet, hsrv]
  · simp [acceptBranch, mapSet, hsrv, (inv_reachable h).server_no_queue]

theorem accept_creates_registered_connection_witness :
    st1.fd_to_sockets 0 = some st1.serverFd ∧
    (dispatch st1 evAccept = some (acceptBranch st1) ∧
     (acceptBranch st1).fd_to_sockets 2 = some 2 ∧
     (acceptBranch st1).message_queues 2 = some [] ∧
     (acceptBranch st1).pollerReg 2 = some READ_ONLY ∧
     (acceptBranch st1).sockOpen 2 = true ∧
     (acceptBranch st1).pollerReg 0 = st1.pollerReg 0 ∧
     (acceptBranch st1).message_queues 0 = none) :=
  ⟨by decide,
    accept_creates_registered_connection reach_st1 (by decide) (by decide)⟩

/-- C7: processing any closing event (zero-byte read, hangup, or error) for
connection `e.fd` succeeds — it never aborts the run loop — and leaves every
other descriptor's outbound queue, registered interest, socket state, and
traces unchanged. -/
theorem close_does_not_disturb_others {st : ServerState} {e : Event} (b : Nat)
    (hb : b ≠ e.fd)
    (hmap : st.fd_to_sockets e.fd = some e.fd)
    (hfd : e.fd ≠ st.serverFd)
    (hreg : st.pollerReg e.fd ≠ none)
    (hq : st.message_queues e.fd ≠ none)
    (hclose : selectedBranch e.flag = Branch.hangup ∨
      selectedBranch e.flag = Branch.error ∨
      (selectedBranch e.flag = Branch.readable ∧ e.recvData = [])) :
    dispatch st e = some (stepD st e) ∧
    (stepD st e).message_queues b = st.message_queues b ∧
    (stepD st e).pollerReg b = st.pollerReg b ∧
    (stepD st e).sockOpen b = st.sockOpen b ∧
    (stepD st e).sentLog b = st.sentLog b ∧
    (stepD st e).recvLog b = st.recvLog b := by
  obtain ⟨m, hm⟩ := Option.ne_none_iff_exists'.mp hreg
  obtain ⟨q, hqs⟩ := Option.ne_none_iff_exists'.mp hq
  rcases hclose with hbr | hbr | ⟨hbr, hdata⟩
  · have hd : dispatch st e = some { st with
        pollerReg := mapDel st.pollerReg e.fd
        sockOpen := setAt st.sockOpen e.fd false } := by
      unfold dispatch
      rw [hmap]
      dsimp only
      rw [hbr]
      dsimp only
      unfold hangupBranch
      rw [hm]
    have hsd : stepD st e = { st with
        pollerReg := mapDel st.pollerReg e.fd
        sockOpen := setAt st.sockOpen e.fd false } := by
      simp [stepD, hd]
    refine ⟨by rw [hd, hsd], by rw [hsd], ?_, ?_, by rw [hsd], by rw [hsd]⟩
    · rw [hsd]; exact mapDel_ne _ hb
    · rw [hsd]; exact setAt_ne _ _ hb
  · have hd : dispatch st e = some { st with
        pollerReg := mapDel st.pollerReg e.fd
        sockOpen := setAt st.sockOpen e.fd false
        message_queues := mapDel st.message_queues e.fd } := by
      unfold dispatch
      rw [hmap]
      dsimp only
      rw [hbr]
      dsimp only
      unfold errorBranch
      rw [hm, hqs]
    have hsd : stepD st e = { st with
        pollerReg := mapDel st.pollerReg e.fd
        sockOpen := setAt st.sockOpen e.fd false
        message_queues := mapDel st.message_queues e.fd } := by
      simp [stepD, hd]
    refine ⟨by rw [hd, hsd], ?_, ?_, ?_, by rw [hsd], by rw [hsd]⟩
    · rw [hsd]; exact mapDel_ne _ hb
    · rw [hsd]; exact mapDel_ne _ hb
    · rw [hsd]; exact setAt_ne _ _ hb
  · have hd : dispatch st e = some { st with
        pollerReg := mapDel st.pollerReg e.fd
        sockOpen := setAt st.sockOpen e.fd false
        message_queues := mapDel st.message_queues e.fd } := by
      unfold dispatch
      rw [hmap]
      dsimp only
      rw [hbr]
      dsimp only
      rw [if_neg hfd]
      unfold recvBranch
      rw [hdata]
      dsimp only
      rw [if_neg (by simp [socketRecv])]
      rw [hm, hqs]
    have hsd : stepD st e = { st with
        pollerReg := mapDel st.pollerReg e.fd
        sockOpen := setAt st.sockOpen e.fd false
        message_queues := mapDel st.message_queues e.fd } := by
      simp [stepD, hd]
    refine ⟨by rw [hd, hsd], ?_, ?_, ?_, by rw [hsd], by rw [hsd]⟩
    · rw [hsd]; exact mapDel_ne _ hb
    · rw [hsd]; exact mapDel_ne _ hb
    · rw [hsd]; exact setAt_ne _ _ hb

theorem close_does_not_disturb_others_witness :
    stTwo.fd_to_sockets 1 = some 1 ∧ stTwo.pollerReg 1 ≠ none ∧
    stTwo.message_queues 1 ≠ none ∧
    (dispatch stTwo evZero = some (stepD stTwo evZero) ∧
     (stepD stTwo evZero).message_queues 2 = stTwo.message_queues 2 ∧
     (stepD stTwo evZero).pollerReg 2 = stTwo.pollerReg 2 ∧
     (stepD stTwo evZero).sockOpen 2 = stTwo.sockOpen 2 ∧
     (stepD stTwo evZero).sentLog 2 = stTwo.sentLog 2 ∧
     (stepD stTwo evZero).recvLog 2 = stTwo.recvLog 2) :=
  ⟨by decide, by decide, by decide,
    close_does_not_disturb_others 2 (by decide) (by decide) (by decide)
      (by decide) (by decide) (Or.inr (Or.inr ⟨by decide, by decide⟩))⟩

/-- C8: a readable event on a non-listening connection performs one `recv`
of at most 1024 bytes and, when the result is non-empty, appends it to that
connection's queue as exactly one chunk; every chunk in the resulting queue
is non-empty and at most 1024 bytes long. -/
theorem recv_enqueues_one_bounded_chunk {st : ServerState} {e : Event}
    {q : List Chunk} {c : Chunk}
    (h : Reachable st) (hmap : st.fd_to_sockets e.fd = some e.fd)
    (hbr : selectedBranch e.flag = Branch.readable) (hfd : e.fd ≠ st.serverFd)
    (hq : st.message_queues e.fd = some q) (hreg : st.pollerReg e.fd ≠ none)
    (hdata : e.recvData ≠ [])
    (hc : c ∈ q ++ [socketRecv e.recvData 1024]) :
    dispatch st e = some (stepD st e) ∧
    (stepD st e).message_queues e.fd = some (q ++ [socketRecv e.recvData 1024]) ∧
    socketRecv e.recvData 1024 ≠ [] ∧
    (socketRecv e.recvData 1024).length ≤ 1024 ∧
    (c ≠ [] ∧ c.length ≤ 1024) := by
  have hdne : socketRecv e.recvData 1024 ≠ [] := by
    rw [socketRecv, Ne, List.take_eq_nil_iff]
    simp [hdata]
  have hlen : (socketRecv e.recvData 1024).length ≤ 1024 := by
    rw [socketRecv, List.length_take]
    exact Nat.min_le_left _ _
  obtain ⟨m, hm⟩ := Option.ne_none_iff_exists'.mp hreg
  have hd : dispatch st e = some { st with
      message_queues := mapSet st.message_queues e.fd (q ++ [socketRecv e.recvData 1024])
      pollerReg := mapSet st.pollerReg e.fd READ_WRITE
      recvLog := setAt st.recvLog e.fd (st.recvLog e.fd ++ [socketRecv e.recvData 1024]) } := by
    unfold dispatch
    rw [hmap]
    dsimp only
    rw [hbr]
    dsimp only
    rw [if_neg hfd]
    unfold recvBranch
    dsimp only
    rw [if_pos hdne, hq, hm]
  have hsd : stepD st e = { st with
      message_queues := mapSet st.message_queues e.fd (q ++ [socketRecv e.recvData 1024])
      pollerReg := mapSet st.pollerReg e.fd READ_WRITE
      recvLog := setAt st.recvLog e.fd (st.recvLog e.fd ++ [socketRecv e.recvData 1024]) } := by
    simp [stepD, hd]
  refine ⟨by rw [hd, hsd], by rw [hsd]; simp [mapSet], hdne, hlen, ?_⟩
  rcases List.mem_append.mp hc with hc' | hc'
  · exact (inv_reachable h).chunks_ok e.fd q hq c hc'
  · rcases List.mem_singleton.mp hc' with rfl
    exact ⟨hdne, hlen⟩

theorem recv_enqueues_one_bounded_chunk_witness :
    st1.message_queues 1 = some [] ∧ [120] ∈ ([] : List Chunk) ++ [socketRecv [120] 1024] ∧
    (dispatch st1 evRecvX = some (stepD st1 evRecvX) ∧
     (stepD st1 evRecvX).message_queues 1 = some (([] : List Chunk) ++ [socketRecv [120] 1024]) ∧
     socketRecv [120] 1024 ≠ [] ∧
     (socketRecv [120] 1024).length ≤ 1024 ∧
     (([120] : Chunk) ≠ [] ∧ ([120] : Chunk).length ≤ 1024)) :=
  ⟨by decide, by decide,
    recv_enqueues_one_bounded_chunk reach_st1 (by decide) (by decide) (by decide)
      (by decide) (by decide) (by decide) (by decide)⟩

/-- C9: a writable event on a connection with a non-empty queue removes the
oldest chunk from the queue and hands it to `send` whole; the post-state is
the same whatever byte count `send` reports (the result is never inspected),
and the chunk is not requeued — the queue is exactly the old tail. -/
theorem dequeue_discards_regardless_of_send {st : ServerState} {e : Event}
    {c : Chunk} {rest : List Chunk} (r : Nat)
    (hmap : st.fd_to_sockets e.fd = some e.fd)
    (hbr : selectedBranch e.flag = Branch.writable)
    (hq : st.message_queues e.fd = some (c :: rest)) :
    dispatch st e = some (stepD st e) ∧
    (stepD st e).message_queues e.fd = some rest ∧
    (stepD st e).sentLog e.fd = st.sentLog e.fd ++ [c] ∧
    (stepD st e).pollerReg e.fd = st.pollerReg e.fd ∧
    dispatch st (Event.mk e.fd e.flag e.recvData r) = dispatch st e := by
  have hd : dispatch st e = some { st with
      message_queues := mapSet st.message_queues e.fd rest
      sentLog := setAt st.sentLog e.fd (st.sentLog e.fd ++ [c]) } := by
    unfold dispatch
    rw [hmap]
    dsimp only
    rw [hbr]
    dsimp only
    unfold writableBranch
    rw [hq]
  have hd2 : dispatch st (Event.mk e.fd e.flag e.recvData r) = some { st with
      message_queues := mapSet st.message_queues e.fd rest
      sentLog := setAt st.sentLog e.fd (st.sentLog e.fd ++ [c]) } := by
    unfold dispatch
    dsimp only
    rw [hmap]
    dsimp only
    rw [hbr]
    dsimp only
    unfold writableBranch
    rw [hq]
  have hsd : stepD st e = { st with
      message_queues := mapSet st.message_queues e.fd rest
      sentLog := setAt st.sentLog e.fd (st.sentLog e.fd ++ [c]) } := by
    simp [stepD, hd]
  refine ⟨by rw [hd, hsd], ?_, ?_, by rw [hsd], by rw [hd2, hd]⟩
  · rw [hsd]; simp [mapSet]
  · rw [hsd]; simp [setAt]

theorem dequeue_discards_regardless_of_send_witness :
    st2.message_queues 1 = some ([120] :: []) ∧
    (dispatch st2 evOut = some (stepD st2 evOut) ∧
     (stepD st2 evOut).message_queues 1 = some [] ∧
     (stepD st2 evOut).sentLog 1 = st2.sentLog 1 ++ [[120]] ∧
     (stepD st2 evOut).pollerReg 1 = st2.pollerReg 1 ∧
     dispatch st2 (Event.mk 1 4 [] 0) = dispatch st2 evOut) :=
  ⟨by decide,
    dequeue_discards_regardless_of_send 0 (by decide) (by decide) (by decide)⟩

end EchoServer

